import Mathlib

/-!
Shallow embedding of the ScummVM Ultima engine fragments shown in this
repository:

* `engines/ultima/ultima4/gfx/image.cpp` — the `Image` wrapper around a
  raster surface: pixel get/put, palette search, font color presets, the
  transparency/halo post-process, sub-rectangle blits and color inversion.
* `engines/ultima/ultima1/core/map.cpp` — `Ultima1Map` map loading.

Machine integers are modelled as `Nat`/`Int` with explicit `% 256` where the
C code converts to `byte`/`uint8`.
-/

namespace ScummVM

/-- A 4-channel color, as the `RGBA` struct of the ultima4 engine (its
fields are C `uint`s). -/
structure RGBA where
  r : ℕ
  g : ℕ
  b : ℕ
  a : ℕ
  deriving DecidableEq, Repr

/-- Modelled from the spec: `IM_TRANSPARENT`, the fully transparent alpha
value, is declared in `image.h`, which is not among the shown sources; the
spec's pass-1 description replaces background pixels "with a fully
transparent alpha" and its testable property asks for "alpha=0". -/
def IM_TRANSPARENT : ℕ := 0

/-- Modelled from the spec: `IM_OPAQUE`, the fully covering alpha value, is
declared in `image.h`, which is not among the shown sources; the spec's
testable property asks for "alpha=255" on unmatched pixels of a direct-color
surface. -/
def IM_OPAQUE : ℕ := 255

/-- All four channels fit in a byte.  This always holds for pixels of the C
surfaces, whose channels are bytes of a packed `uint32` (or byte palette
entries). -/
def RGBA.Bytes (c : RGBA) : Prop := c.r < 256 ∧ c.g < 256 ∧ c.b < 256 ∧ c.a < 256

instance (c : RGBA) : Decidable c.Bytes := by
  unfold RGBA.Bytes; infer_instance

/-- The state of an ultima4 `Image`.  The C++ class wraps a
`Graphics::ManagedSurface`; the code distinguishes 8-bit CLUT surfaces
(`format.bytesPerPixel == 1`, `_paletted`) from direct-color surfaces.  For
a direct-color surface `pix` holds the RGBA channels of each packed pixel;
for a CLUT surface `idx` holds the per-pixel palette index and `palette` the
byte RGB table read back by `grabPalette`.  Unused fields of the other kind
are simply never consulted. -/
structure Image where
  w : ℕ
  h : ℕ
  paletted : Bool
  pix : ℕ → ℕ → RGBA
  palette : ℕ → ℕ × ℕ × ℕ
  idx : ℕ → ℕ → ℕ
  transparentColor : Option ℕ
  backgroundColor : RGBA

/-- The linear palette search loop of `Image::getColor` (paletted branch):
`for (color = 0; color <= 0xfe; ++color) { ... if (r == rv && g == gv && b == bv) break; }`.
`count` is the number of iterations the loop may still run (255 at entry)
and `c` the loop counter; when the counter passes `0xfe` the loop exits and
the function returns `0xff`. -/
def getColorScan (pal : ℕ → ℕ × ℕ × ℕ) (r g b : ℕ) : ℕ → ℕ → ℕ
  | 0, c => c
  | count + 1, c => if pal c = (r, g, b) then c else getColorScan pal r g b count (c + 1)

/-- `Image::getColor` on a paletted surface.  The `byte` parameters truncate
the `int` arguments passed by `putPixel` (hence `% 256`); `a` is not used by
this branch. -/
def getColorPaletted (pal : ℕ → ℕ × ℕ × ℕ) (r g b a : ℕ) : ℕ :=
  getColorScan pal (r % 256) (g % 256) (b % 256) 255 0

/-- `Image::getPixel`: on a CLUT surface, palette lookup of the stored index
with fully covering alpha; on a direct-color surface, extraction of the
stored channels (`colorToARGB`, an identity in this model). -/
def Image.getPixel (img : Image) (x y : ℕ) : RGBA :=
  if img.paletted then
    let p := img.palette (img.idx x y)
    ⟨p.1, p.2.1, p.2.2, IM_OPAQUE⟩
  else
    img.pix x y

/-- `Image::putPixel`: resolves the arguments through `getColor` and stores
the result with `setPixel`.  On a CLUT surface the stored value is the found
palette index; on a direct-color surface it is the packed pixel, whose
channels are the byte casts of the arguments (`% 256`). -/
def Image.putPixel (img : Image) (x y : ℕ) (r g b a : ℕ) : Image :=
  if img.paletted then
    { img with
      idx := fun u v =>
        if u = x ∧ v = y then getColorPaletted img.palette r g b a else img.idx u v }
  else
    { img with
      pix := fun u v =>
        if u = x ∧ v = y then ⟨r % 256, g % 256, b % 256, a % 256⟩ else img.pix u v }

/-- The coordinate pairs `(i, j)` visited by two nested `for` loops, the
outer loop providing `i`. -/
def loopPairs (outer inner : List ℕ) : List (ℕ × ℕ) :=
  outer.foldr (fun i acc => (inner.map fun j => (i, j)) ++ acc) []

/-- `Image::drawHighlighted`: for every row `i` and column `j` of the
surface, read the pixel and write back `(0xff - r, 0xff - g, 0xff - b, a)`.
(The channels read from a real surface are bytes, so the C `uint`
subtraction never wraps.) -/
def Image.drawHighlighted (img : Image) : Image :=
  (loopPairs (List.range img.h) (List.range img.w)).foldl
    (fun im c =>
      let p := im.getPixel c.2 c.1
      im.putPixel c.2 c.1 (0xff - p.r) (0xff - p.g) (0xff - p.b) p.a)
    img

/-- Modelled from the spec: the reserved text palette slots written by the
font color presets (`TEXT_FG_PRIMARY_INDEX`, `TEXT_FG_SECONDARY_INDEX`,
`TEXT_FG_SHADOW_INDEX` are declared in `image.h`, which is not among the
shown sources).  The spec only requires three distinct reserved slots; the
concrete values are irrelevant here. -/
def TEXT_FG_PRIMARY_INDEX : ℕ := 88

/-- Modelled from the spec: see `TEXT_FG_PRIMARY_INDEX`. -/
def TEXT_FG_SECONDARY_INDEX : ℕ := 87

/-- Modelled from the spec: see `TEXT_FG_PRIMARY_INDEX`. -/
def TEXT_FG_SHADOW_INDEX : ℕ := 86

/-- `Image::setPaletteIndex`: fails (returning `false`, touching nothing) on
a non-CLUT surface, otherwise writes one palette entry (byte channels, the
`uint8` parameters) and succeeds. -/
def Image.setPaletteIndex (img : Image) (index r g b : ℕ) : Bool × Image :=
  if !img.paletted then (false, img)
  else
    (true,
      { img with
        palette := fun i =>
          if i = index then (r % 256, g % 256, b % 256) else img.palette i })

/-- The `ColorFG` selector of `image.h`.  The named cases are the ones the
`setFontColorFG` switch handles; `other` stands for any further enum value,
which the switch sends to its `default` branch. -/
inductive ColorFG
  | grey
  | blue
  | purple
  | green
  | red
  | yellow
  | other
  deriving DecidableEq

/-- `Image::setFontColorFG`: writes the three reserved text slots for the
selected scheme, returning `false` as soon as one `setPaletteIndex` call
fails (leaving the earlier writes of the same call applied). -/
def Image.setFontColorFG (img : Image) (fg : ColorFG) : Bool × Image :=
  match fg with
  | .grey =>
    let r1 := img.setPaletteIndex TEXT_FG_PRIMARY_INDEX 153 153 153
    if !r1.1 then (false, r1.2) else
    let r2 := r1.2.setPaletteIndex TEXT_FG_SECONDARY_INDEX 102 102 102
    if !r2.1 then (false, r2.2) else
    let r3 := r2.2.setPaletteIndex TEXT_FG_SHADOW_INDEX 51 51 51
    if !r3.1 then (false, r3.2) else (true, r3.2)
  | .blue =>
    let r1 := img.setPaletteIndex TEXT_FG_PRIMARY_INDEX 102 102 255
    if !r1.1 then (false, r1.2) else
    let r2 := r1.2.setPaletteIndex TEXT_FG_SECONDARY_INDEX 51 51 204
    if !r2.1 then (false, r2.2) else
    let r3 := r2.2.setPaletteIndex TEXT_FG_SHADOW_INDEX 51 51 51
    if !r3.1 then (false, r3.2) else (true, r3.2)
  | .purple =>
    let r1 := img.setPaletteIndex TEXT_FG_PRIMARY_INDEX 255 102 255
    if !r1.1 then (false, r1.2) else
    let r2 := r1.2.setPaletteIndex TEXT_FG_SECONDARY_INDEX 204 51 204
    if !r2.1 then (false, r2.2) else
    let r3 := r2.2.setPaletteIndex TEXT_FG_SHADOW_INDEX 51 51 51
    if !r3.1 then (false, r3.2) else (true, r3.2)
  | .green =>
    let r1 := img.setPaletteIndex TEXT_FG_PRIMARY_INDEX 102 255 102
    if !r1.1 then (false, r1.2) else
    let r2 := r1.2.setPaletteIndex TEXT_FG_SECONDARY_INDEX 0 153 0
    if !r2.1 then (false, r2.2) else
    let r3 := r2.2.setPaletteIndex TEXT_FG_SHADOW_INDEX 51 51 51
    if !r3.1 then (false, r3.2) else (true, r3.2)
  | .red =>
    let r1 := img.setPaletteIndex TEXT_FG_PRIMARY_INDEX 255 102 102
    if !r1.1 then (false, r1.2) else
    let r2 := r1.2.setPaletteIndex TEXT_FG_SECONDARY_INDEX 204 51 51
    if !r2.1 then (false, r2.2) else
    let r3 := r2.2.setPaletteIndex TEXT_FG_SHADOW_INDEX 51 51 51
    if !r3.1 then (false, r3.2) else (true, r3.2)
  | .yellow =>
    let r1 := img.setPaletteIndex TEXT_FG_PRIMARY_INDEX 255 255 51
    if !r1.1 then (false, r1.2) else
    let r2 := r1.2.setPaletteIndex TEXT_FG_SECONDARY_INDEX 204 153 51
    if !r2.1 then (false, r2.2) else
    let r3 := r2.2.setPaletteIndex TEXT_FG_SHADOW_INDEX 51 51 51
    if !r3.1 then (false, r3.2) else (true, r3.2)
  | .other =>
    let r1 := img.setPaletteIndex TEXT_FG_PRIMARY_INDEX 255 255 255
    if !r1.1 then (false, r1.2) else
    let r2 := r1.2.setPaletteIndex TEXT_FG_SECONDARY_INDEX 204 204 204
    if !r2.1 then (false, r2.2) else
    let r3 := r2.2.setPaletteIndex TEXT_FG_SHADOW_INDEX 68 68 68
    if !r3.1 then (false, r3.2) else (true, r3.2)

/-- One pixel of pass 1 of `Image::performTransparencyHack` (`c = (y, x)`:
the row loop is the outer one).  The pixel's RGB is compared against the
keyed color `t`; a match is written back fully transparent, any other pixel
is written back unchanged and, when `haloWidth` is nonzero, its coordinates
are appended to the saved list (`push_back`). -/
def transparencyPass1Step (t : ℕ × ℕ × ℕ) (haloWidth : ℕ)
    (st : Image × List (ℕ × ℕ)) (c : ℕ × ℕ) : Image × List (ℕ × ℕ) :=
  let y := c.1
  let x := c.2
  let p := st.1.getPixel x y
  if p.r = t.1 ∧ p.g = t.2.1 ∧ p.b = t.2.2 then
    (st.1.putPixel x y p.r p.g p.b IM_TRANSPARENT, st.2)
  else
    (st.1.putPixel x y p.r p.g p.b p.a,
      if haloWidth ≠ 0 then st.2 ++ [(x, y)] else st.2)

/-- The surface component of `transparencyPass1Step` (pass 1 only appends to
the saved list, and the written pixel depends only on the surface). -/
def pass1ImgStep (t : ℕ × ℕ × ℕ) (im : Image) (c : ℕ × ℕ) : Image :=
  let y := c.1
  let x := c.2
  let p := im.getPixel x y
  if p.r = t.1 ∧ p.g = t.2.1 ∧ p.b = t.2.2 then
    im.putPixel x y p.r p.g p.b IM_TRANSPARENT
  else
    im.putPixel x y p.r p.g p.b p.a

/-- One saved-coordinate iteration of pass 2 of
`Image::performTransparencyHack` (`o = (ox, oy)`).  The two nested loops
walk `x` from `MAX(0, ox - span)` to `MIN(w, ox + span + 1)` and `y` from
`MAX(top, oy - span)` to `MIN(bottom, oy + span + 1)` (the column loop is
the outer one), and every visited pixel whose alpha is not yet full gets it
raised by `haloOpacityIncrementByPixelDistance / divisor`, capped at
`IM_OPAQUE`.  Inside the loop bounds `divisor ≥ 1`, so the C `uint / int`
division equals `Nat` division through `Int.toNat`. -/
def haloStep (span cOpacity top bottom : ℕ) (img : Image) (o : ℕ × ℕ) : Image :=
  let ox := o.1
  let oy := o.2
  let xStart := ox - span
  let xFinish := min img.w (ox + span + 1)
  let yStart := max top (oy - span)
  let yFinish := min bottom (oy + span + 1)
  (loopPairs (List.range' xStart (xFinish - xStart))
      (List.range' yStart (yFinish - yStart))).foldl
    (fun im (c : ℕ × ℕ) =>
      let x := c.1
      let y := c.2
      let divisor : ℤ := 1 + (span : ℤ) * 2 - |(ox : ℤ) - x| - |(oy : ℤ) - y|
      let p := im.getPixel x y
      if p.a ≠ IM_OPAQUE then
        im.putPixel x y p.r p.g p.b (min IM_OPAQUE (p.a + cOpacity / divisor.toNat))
      else im)
    img

/-- `Image::performTransparencyHack`.  `top`/`bottom` select the scanned
horizontal band (the `int16` casts of the C code are dropped: surface
dimensions are `int16`, so the values already fit).  Pass 1 keys out the
color and saves the coordinates of the non-matching pixels; pass 2 folds
`haloStep` over the saved list in order, each step reading the surface the
previous steps left. -/
def Image.performTransparencyHack (img : Image) (colorValue : RGBA)
    (numFrames currentFrameIndex haloWidth haloOpacityIncrementByPixelDistance : ℕ) :
    Image :=
  let t := (colorValue.r, colorValue.g, colorValue.b)
  let frameHeight := img.h / numFrames
  let top := min img.h (currentFrameIndex * frameHeight)
  let bottom := min img.h (top + frameHeight)
  let st := (loopPairs (List.range' top (bottom - top)) (List.range img.w)).foldl
    (transparencyPass1Step t haloWidth) (img, [])
  st.2.foldl (haloStep haloWidth haloOpacityIncrementByPixelDistance top bottom) st.1

/-- `Image::makeBackgroundColorTransparent`: packs `_backgroundColor` with
`ARGBToColor` (whose parameters are bytes, hence `% 256`) and runs the
transparency hack over the whole surface (`numFrames = 1`, frame 0). -/
def Image.makeBackgroundColorTransparent (img : Image) (haloSize shadowOpacity : ℕ) :
    Image :=
  img.performTransparencyHack
    ⟨img.backgroundColor.r % 256, img.backgroundColor.g % 256,
      img.backgroundColor.b % 256, img.backgroundColor.a % 256⟩
    1 0 haloSize shadowOpacity

/-- `Common::Rect`: edges are `int16`; modelled as unbounded integers. -/
structure Rect where
  left : ℤ
  top : ℤ
  right : ℤ
  bottom : ℤ
  deriving DecidableEq, Repr

/-- `Common::Rect::isValidRect()`: `left <= right && top <= bottom`. -/
def Rect.isValidRect (r : Rect) : Prop := r.left ≤ r.right ∧ r.top ≤ r.bottom

instance (r : Rect) : Decidable r.isValidRect := by
  unfold Rect.isValidRect; infer_instance

/-- `Image::drawSubRectOn`, reduced to the blit call it issues: the source
rectangle `(rx, ry, MIN(rx+rw, w), MIN(ry+rh, h))` has its left/top clamped
to 0 with the destination origin shifted by the clamped amount, and the blit
happens only if the final rectangle `isValidRect()`.  Returns the
`blitFrom` arguments, or `none` when no blit is performed. -/
def drawSubRectOnCall (w h x y rx ry rw rh : ℤ) : Option (Rect × ℤ × ℤ) :=
  let right := min (rx + rw) w
  let bottom := min (ry + rh) h
  let destX := if rx < 0 then x - rx else x
  let left := if rx < 0 then 0 else rx
  let destY := if ry < 0 then y - ry else y
  let top := if ry < 0 then 0 else ry
  let r : Rect := ⟨left, top, right, bottom⟩
  if r.isValidRect then some (r, destX, destY) else none

/-- `Image::drawSubRectInvertedOn`, reduced to the list of single-row
`blitFrom` calls it issues, in order: iteration `i` blits source row
`ry + i` (rectangle `(rx, ry+i, rx+rw, ry+i+1)`) to destination
`(x, y + rh - 1 - i)`.  The loop `for (i = 0; i < rh; i++)` runs
`rh.toNat` times. -/
def drawSubRectInvertedOnCalls (x y rx ry rw rh : ℤ) : List (Rect × ℤ × ℤ) :=
  (List.range rh.toNat).map fun (i : ℕ) =>
    (⟨rx, ry + (i : ℤ), rx + rw, ry + (i : ℤ) + 1⟩, x, y + rh - 1 - (i : ℤ))

/-- `Shared::MapType` values used by `Ultima1Map` (`MAP_OVERWORLD`,
`MAP_TOWN`, `MAP_CASTLE`). -/
inductive MapType
  | overworld
  | town
  | castle
  deriving DecidableEq, Repr

/-- The `Ultima1Map` fields touched by the loading code.  `data` maps a grid
index to the byte read for it. -/
structure MapState where
  mapId : ℤ
  mapStyle : ℤ
  mapType : MapType
  sizeX : ℤ
  sizeY : ℤ
  tilesPerOrigTileX : ℤ
  tilesPerOrigTileY : ℤ
  fixed : Bool
  data : ℕ → ℕ

/-- Modelled from the spec: the shared base class `Shared::Map::loadMap`
(declared outside the shown sources) records the requested map id into
`_mapId` before the Ultima 1 dispatch runs — the town/castle loader then
seeks to `_mapId * 684`, the spec's "source offset = mapId × 684". -/
def baseLoadMap (mapId : ℤ) (st : MapState) : MapState :=
  { st with mapId := mapId }

/-- `Ultima1Map::loadOverworldMap`: 168×156 grid read as a flat byte stream
of `map.bin` (`mapBin` gives the file's bytes). -/
def loadOverworldMap (mapBin : ℕ → ℕ) (st : MapState) : MapState :=
  { st with
    mapType := .overworld
    sizeX := 168
    sizeY := 156
    tilesPerOrigTileX := 1
    tilesPerOrigTileY := 1
    data := fun i => mapBin i }

/-- `Ultima1Map::loadTownCastleMap`: 38×18 grid read from `tcd.bin`
(`tcd` gives the file's bytes) after seeking to `_mapId * 684`, then the
category policy: id < 33 is a town with style `id % 8 + 2`, otherwise a
castle with style `id % 2` and the stored id decremented by 33 (the style is
computed before the decrement).  `Int.tmod` is the C `%` (truncated
division); the ids reaching this code are positive. -/
def loadTownCastleMap (tcd : ℕ → ℕ) (st : MapState) : MapState :=
  let st' := { st with
    sizeX := 38
    sizeY := 18
    tilesPerOrigTileX := 1
    tilesPerOrigTileY := 1
    data := fun i => tcd ((st.mapId * 684).toNat + i)
    fixed := true }
  if st'.mapId < 33 then
    { st' with mapType := .town, mapStyle := st'.mapId.tmod 8 + 2 }
  else
    { st' with
      mapType := .castle
      mapStyle := st'.mapId.tmod 2
      mapId := st'.mapId - 33 }

/-- `Ultima1Map::loadMap`: store the id (base call), then dispatch — id 0 is
the overworld, anything else a town or castle map.  `videoMode` is not
consulted by this code. -/
def loadMap (mapBin tcd : ℕ → ℕ) (mapId : ℤ) (videoMode : ℕ) (st : MapState) :
    MapState :=
  let st' := baseLoadMap mapId st
  if mapId = 0 then loadOverworldMap mapBin st' else loadTownCastleMap tcd st'

/-! Concrete example states used to instantiate the theorems below. -/

/-- An arbitrary pre-load map state. -/
def mapState0 : MapState :=
  ⟨0, 0, .overworld, 0, 0, 0, 0, false, fun _ => 0⟩

/-- A 1×1 CLUT image whose palette maps every searchable index (0–0xfe) to
black and index 0xff to (1,1,1); its single pixel holds index 0. -/
def palImgC1 : Image where
  w := 1
  h := 1
  paletted := true
  pix := fun _ _ => ⟨0, 0, 0, 0⟩
  palette := fun i => if i ≤ 254 then (0, 0, 0) else (1, 1, 1)
  idx := fun _ _ => 0
  transparentColor := none
  backgroundColor := ⟨0, 0, 0, 0⟩

/-- A 2×1 direct-color image: pixel (0,0) holds the background color
(1,2,3) fully covered, pixel (1,0) holds (9,9,9) fully covered. -/
def imgC5 : Image where
  w := 2
  h := 1
  paletted := false
  pix := fun u v => if u = 0 ∧ v = 0 then ⟨1, 2, 3, 255⟩ else ⟨9, 9, 9, 255⟩
  palette := fun _ => (0, 0, 0)
  idx := fun _ _ => 0
  transparentColor := none
  backgroundColor := ⟨1, 2, 3, 255⟩

/-- A 3×1 direct-color image whose middle pixel is fully transparent and
whose outer pixels are fully covered. -/
def imgC6 : Image where
  w := 3
  h := 1
  paletted := false
  pix := fun u _ => if u = 1 then ⟨5, 5, 5, 0⟩ else ⟨7, 7, 7, 255⟩
  palette := fun _ => (0, 0, 0)
  idx := fun _ _ => 0
  transparentColor := none
  backgroundColor := ⟨0, 0, 0, 0⟩

/-- A CLUT image with an all-black palette. -/
def palImg0 : Image where
  w := 4
  h := 4
  paletted := true
  pix := fun _ _ => ⟨0, 0, 0, 0⟩
  palette := fun _ => (0, 0, 0)
  idx := fun _ _ => 0
  transparentColor := none
  backgroundColor := ⟨0, 0, 0, 0⟩

/-- A palette holding (7,8,9) at the duplicate indices 3 and 5 and black
everywhere else. -/
def pal9 : ℕ → ℕ × ℕ × ℕ :=
  fun i => if i = 3 ∨ i = 5 then (7, 8, 9) else (0, 0, 0)

/-! ### General lemmas about the loop folds -/

/-- A fold preserves any property each step preserves. -/
lemma foldl_step_pres {α γ : Type _} (P : α → Prop) (step : α → γ → α)
    (h : ∀ a c, P a → P (step a c)) :
    ∀ (L : List γ) (a : α), P a → P (L.foldl step a) := by
  intro L
  induction L with
  | nil => intro a ha; simpa using ha
  | cons d L ih =>
    intro a ha
    rw [List.foldl_cons]
    exact ih (step a d) (h a d ha)

/-- Folding a per-cell update over a duplicate-free list of cells, where each
step rewrites exactly the cell it visits as a function of that cell's current
value, changes every visited cell once and nothing else. -/
lemma foldl_cellwise {α β γ : Type _} [DecidableEq γ] (step : α → γ → α)
    (read : α → γ → β) (f : γ → β → β) (inv : α → Prop)
    (hinv : ∀ a c, inv a → inv (step a c))
    (h1 : ∀ a c, inv a → read (step a c) c = f c (read a c))
    (h2 : ∀ a c c', inv a → c' ≠ c → read (step a c) c' = read a c') :
    ∀ (L : List γ) (a : α), inv a → L.Nodup → ∀ c,
      read (L.foldl step a) c = if c ∈ L then f c (read a c) else read a c := by
  intro L
  induction L with
  | nil => intro a _ _ c; simp
  | cons d L ih =>
    intro a ha hnd c
    obtain ⟨hd, hL⟩ := List.nodup_cons.mp hnd
    rw [List.foldl_cons]
    by_cases hc : c = d
    · subst hc
      rw [ih (step a c) (hinv a c ha) hL c, if_neg hd, h1 a c ha,
        if_pos (List.mem_cons_self c L)]
    · rw [ih (step a d) (hinv a d ha) hL c, h2 a d c ha hc]
      by_cases hm : c ∈ L
      · rw [if_pos hm, if_pos (List.mem_cons_of_mem d hm)]
      · rw [if_neg hm, if_neg (by simp [List.mem_cons, hc, hm])]

/-- Unfolding `loopPairs` on a cons. -/
lemma loopPairs_cons (i : ℕ) (outer inner : List ℕ) :
    loopPairs (i :: outer) inner = (inner.map fun j => (i, j)) ++ loopPairs outer inner := rfl

/-- Membership in the visited pairs of two nested loops. -/
lemma mem_loopPairs (outer inner : List ℕ) (p : ℕ × ℕ) :
    p ∈ loopPairs outer inner ↔ p.1 ∈ outer ∧ p.2 ∈ inner := by
  induction outer with
  | nil => simp [loopPairs]
  | cons i out ih =>
    rw [loopPairs_cons]
    simp only [List.mem_append, List.mem_map, ih, List.mem_cons]
    constructor
    · rintro (⟨j, hj, rfl⟩ | ⟨h1, h2⟩)
      · exact ⟨Or.inl rfl, hj⟩
      · exact ⟨Or.inr h1, h2⟩
    · rintro ⟨h1 | h1, h2⟩
      · exact Or.inl ⟨p.2, h2, by rw [← h1]⟩
      · exact Or.inr ⟨h1, h2⟩

/-- The visited pairs of two nested loops over duplicate-free ranges are
duplicate-free. -/
lemma nodup_loopPairs (outer inner : List ℕ) (ho : outer.Nodup) (hi : inner.Nodup) :
    (loopPairs outer inner).Nodup := by
  induction outer with
  | nil => simp [loopPairs]
  | cons i out ih =>
    obtain ⟨hio, ho'⟩ := List.nodup_cons.mp ho
    rw [loopPairs_cons]
    refine List.Nodup.append ?_ (ih ho') ?_
    · refine List.Nodup.map ?_ hi
      intro a b hab
      simpa using hab
    · intro p hp hp'
      obtain ⟨j, _, rfl⟩ := List.mem_map.mp hp
      exact hio ((mem_loopPairs out inner _).mp hp').1

/-! ### C2 / C3: Ultima1Map::loadMap category policy -/

/-- C3: every map id ≥ 33 given to `Ultima1Map::loadMap` loads a castle map
whose stored style is the original id mod 2 and whose stored id is the
original id minus 33. -/
theorem loadMap_castle (mapBin tcd : ℕ → ℕ) (mapId : ℤ) (videoMode : ℕ)
    (st : MapState) (h : 33 ≤ mapId) :
    (loadMap mapBin tcd mapId videoMode st).mapType = MapType.castle ∧
    (loadMap mapBin tcd mapId videoMode st).mapStyle = mapId.tmod 2 ∧
    (loadMap mapBin tcd mapId videoMode st).mapId = mapId - 33 := by
  have h0 : ¬(mapId = 0) := by omega
  have h33 : ¬(mapId < 33) := by omega
  simp [loadMap, baseLoadMap, loadTownCastleMap, h0, h33]

/-- Witness for `loadMap_castle` at map id 34. -/
theorem loadMap_castle_witness :
    (33 : ℤ) ≤ 34 ∧
    ((loadMap (fun _ => 0) (fun _ => 0) 34 0 mapState0).mapType = MapType.castle ∧
     (loadMap (fun _ => 0) (fun _ => 0) 34 0 mapState0).mapStyle = (34 : ℤ).tmod 2 ∧
     (loadMap (fun _ => 0) (fun _ => 0) 34 0 mapState0).mapId = 34 - 33) :=
  ⟨by norm_num, loadMap_castle (fun _ => 0) (fun _ => 0) 34 0 mapState0 (by norm_num)⟩

/-- C2 counterexample: map id 0 is dispatched to the overworld loader, so the
loaded category is not town/city, refuting the claim for the interval
[0,33). -/
theorem loadMap_zero_not_town :
    (loadMap (fun _ => 0) (fun _ => 0) 0 0 mapState0).mapType ≠ MapType.town := by
  decide

/-- C2 (amended): every map id in [1,33) given to `Ultima1Map::loadMap`
loads a town/city map whose stored style is the id mod 8 plus 2. -/
theorem loadMap_town (mapBin tcd : ℕ → ℕ) (mapId : ℤ) (videoMode : ℕ)
    (st : MapState) (h1 : 1 ≤ mapId) (h2 : mapId < 33) :
    (loadMap mapBin tcd mapId videoMode st).mapType = MapType.town ∧
    (loadMap mapBin tcd mapId videoMode st).mapStyle = mapId.tmod 8 + 2 := by
  have h0 : ¬(mapId = 0) := by omega
  simp [loadMap, baseLoadMap, loadTownCastleMap, h0, h2]

/-- Witness for `loadMap_town` at map id 12. -/
theorem loadMap_town_witness :
    (1 : ℤ) ≤ 12 ∧ (12 : ℤ) < 33 ∧
    ((loadMap (fun _ => 0) (fun _ => 0) 12 0 mapState0).mapType = MapType.town ∧
     (loadMap (fun _ => 0) (fun _ => 0) 12 0 mapState0).mapStyle = (12 : ℤ).tmod 8 + 2) :=
  ⟨by norm_num, by norm_num,
    loadMap_town (fun _ => 0) (fun _ => 0) 12 0 mapState0 (by norm_num) (by norm_num)⟩

/-! ### C4: drawSubRectOn clipping against the negative edges -/

/-- C4: a `drawSubRectOn` call whose source rectangle extends past the left
or top surface edge issues exactly the blit of the clipped source rectangle
at the destination origin shifted right/down by the clipped amounts; in
particular source rect (-3,0,10,10) drawn at (5,5) on a 10×10 surface issues
the same blit as the clipped source rectangle drawn at (8,5). -/
theorem drawSubRectOn_clips_and_shifts (w h x y rx ry rw rh : ℤ) :
    drawSubRectOnCall w h x y rx ry rw rh =
      drawSubRectOnCall w h (x + max 0 (-rx)) (y + max 0 (-ry))
        (max rx 0) (max ry 0) (rw - max 0 (-rx)) (rh - max 0 (-ry)) ∧
    drawSubRectOnCall 10 10 5 5 (-3) 0 10 10 = some (⟨0, 0, 7, 10⟩, 8, 5) ∧
    drawSubRectOnCall 10 10 8 5 0 0 7 10 = some (⟨0, 0, 7, 10⟩, 8, 5) := by
  refine ⟨?_, by decide, by decide⟩
  dsimp only [drawSubRectOnCall, Rect.isValidRect]
  have hrx : ¬(max rx 0 < 0) := by omega
  have hry : ¬(max ry 0 < 0) := by omega
  have erx : max rx 0 + (rw - max 0 (-rx)) = rx + rw := by omega
  have ery : max ry 0 + (rh - max 0 (-ry)) = ry + rh := by omega
  simp only [if_neg hrx, if_neg hry, erx, ery]
  by_cases h1 : rx < 0 <;> by_cases h2 : ry < 0 <;>
    simp only [h1, h2, if_true, if_false]
  all_goals split_ifs with hv hv'
  all_goals try rfl
  all_goals try (exfalso; omega)
  all_goals simp only [Option.some.injEq, Prod.mk.injEq, Rect.mk.injEq,
    and_true, true_and]
  all_goals omega

/-! ### C8: drawSubRectInvertedOn row order -/

/-- C8: `drawSubRectInvertedOn` with source height `rh` issues exactly `rh`
single-row blit calls, and call `i` blits source row `ry + i` (the rectangle
`(rx, ry+i, rx+rw, ry+i+1)`) to destination `(x, y + rh - 1 - i)`, so rows
are drawn bottom-up into top-down destination rows. -/
theorem drawSubRectInvertedOn_rows (x y rx ry rw rh : ℤ) (i : ℕ)
    (hrh : 0 ≤ rh) (hi : (i : ℤ) < rh) :
    (drawSubRectInvertedOnCalls x y rx ry rw rh).length = rh.toNat ∧
    ((rh.toNat : ℤ) = rh) ∧
    (drawSubRectInvertedOnCalls x y rx ry rw rh)[i]? =
      some (⟨rx, ry + i, rx + rw, ry + i + 1⟩, x, y + rh - 1 - i) := by
  have hi' : i < rh.toNat := by omega
  refine ⟨?_, by omega, ?_⟩
  · unfold drawSubRectInvertedOnCalls
    rw [List.length_map, List.length_range]
  · unfold drawSubRectInvertedOnCalls
    rw [List.getElem?_map, List.getElem?_range hi']
    rfl

/-- Witness for `drawSubRectInvertedOn_rows`: a 3-row blit, middle row. -/
theorem drawSubRectInvertedOn_rows_witness :
    (0 : ℤ) ≤ 3 ∧ ((1 : ℕ) : ℤ) < 3 ∧
    ((drawSubRectInvertedOnCalls 4 6 2 5 7 3).length = (3 : ℤ).toNat ∧
     (((3 : ℤ).toNat : ℤ) = 3) ∧
     (drawSubRectInvertedOnCalls 4 6 2 5 7 3)[(1 : ℕ)]? =
       some ((⟨2, 5 + ((1 : ℕ) : ℤ), 2 + 7, 5 + ((1 : ℕ) : ℤ) + 1⟩ : Rect),
         (4 : ℤ), 6 + 3 - 1 - ((1 : ℕ) : ℤ))) :=
  ⟨by norm_num, by norm_num,
    drawSubRectInvertedOn_rows 4 6 2 5 7 3 1 (by norm_num) (by norm_num)⟩

/-! ### C9: getColor palette search -/

/-- If no index scanned by the remaining iterations matches, the loop runs to
the end and leaves the counter there. -/
lemma getColorScan_not_found (pal : ℕ → ℕ × ℕ × ℕ) (r g b : ℕ) :
    ∀ (count c : ℕ), (∀ j, j < count → pal (c + j) ≠ (r, g, b)) →
      getColorScan pal r g b count c = c + count := by
  intro count
  induction count with
  | zero => intro c _; simp [getColorScan]
  | succ n ih =>
    intro c hc
    rw [getColorScan]
    have h0 : ¬(pal c = (r, g, b)) := by simpa using hc 0 (by omega)
    rw [if_neg h0]
    have hrest : ∀ j, j < n → pal (c + 1 + j) ≠ (r, g, b) := by
      intro j hj
      have h := hc (j + 1) (by omega)
      rwa [show c + (j + 1) = c + 1 + j by omega] at h
    rw [ih (c + 1) hrest]
    omega

/-- The loop stops at the first matching index among the remaining
iterations. -/
lemma getColorScan_found (pal : ℕ → ℕ × ℕ × ℕ) (r g b : ℕ) :
    ∀ (count c j : ℕ), j < count → pal (c + j) = (r, g, b) →
      (∀ j', j' < j → pal (c + j') ≠ (r, g, b)) →
      getColorScan pal r g b count c = c + j := by
  intro count
  induction count with
  | zero => intro c j hj _ _; exact absurd hj (Nat.not_lt_zero j)
  | succ n ih =>
    intro c j hj hmatch hmin
    rw [getColorScan]
    by_cases h0 : pal c = (r, g, b)
    · rw [if_pos h0]
      rcases Nat.eq_zero_or_pos j with rfl | hjpos
      · simp
      · exact absurd h0 (by simpa using hmin 0 hjpos)
    · rw [if_neg h0]
      rcases Nat.eq_zero_or_pos j with rfl | hjpos
      · exact absurd (by simpa using hmatch) h0
      · have hm : pal (c + 1 + (j - 1)) = (r, g, b) := by
          rwa [show c + 1 + (j - 1) = c + j by omega]
        have hmin' : ∀ j', j' < j - 1 → pal (c + 1 + j') ≠ (r, g, b) := by
          intro j' hj'
          have h := hmin (j' + 1) (by omega)
          rwa [show c + (j' + 1) = c + 1 + j' by omega] at h
        rw [ih (c + 1) (j - 1) (by omega) hm hmin']
        omega

/-- C9: on an 8-bit paletted surface, `getColor(r,g,b,a)` ignores `a`,
returns 0xff when no index in 0..0xfe matches (r,g,b) exactly, and otherwise
returns a matching index below 0xff such that every smaller index
mismatches — the smallest matching index. -/
theorem getColor_paletted_least (pal : ℕ → ℕ × ℕ × ℕ) (r g b a a' : ℕ)
    (hr : r < 256) (hg : g < 256) (hb : b < 256) :
    getColorPaletted pal r g b a = getColorPaletted pal r g b a' ∧
    ((∀ i, i < 255 → pal i ≠ (r, g, b)) → getColorPaletted pal r g b a = 255) ∧
    (∀ j, j < 255 → pal j = (r, g, b) →
      getColorPaletted pal r g b a < 255 ∧
      pal (getColorPaletted pal r g b a) = (r, g, b) ∧
      ∀ k, k < getColorPaletted pal r g b a → pal k ≠ (r, g, b)) := by
  refine ⟨rfl, ?_, ?_⟩
  · intro hnone
    unfold getColorPaletted
    rw [Nat.mod_eq_of_lt hr, Nat.mod_eq_of_lt hg, Nat.mod_eq_of_lt hb]
    have h := getColorScan_not_found pal r g b 255 0 (fun j hj => by
      simpa using hnone j hj)
    simpa using h
  · intro j hj hmatch
    have hex : ∃ i, pal i = (r, g, b) := ⟨j, hmatch⟩
    have hspec := Nat.find_spec hex
    have hle : Nat.find hex ≤ j := Nat.find_min' hex hmatch
    have heq : getColorPaletted pal r g b a = Nat.find hex := by
      unfold getColorPaletted
      rw [Nat.mod_eq_of_lt hr, Nat.mod_eq_of_lt hg, Nat.mod_eq_of_lt hb]
      have h := getColorScan_found pal r g b 255 0 (Nat.find hex)
        (by omega) (by simpa using hspec)
        (fun j' hj' => by simpa using Nat.find_min hex hj')
      simpa using h
    rw [heq]
    exact ⟨by omega, hspec, fun k hk => Nat.find_min hex hk⟩

/-- Witness for `getColor_paletted_least` on the duplicate-entry palette
`pal9`: the search is indifferent to alpha and lands on a matching index. -/
theorem getColor_paletted_least_witness :
    7 < 256 ∧ 8 < 256 ∧ 9 < 256 ∧
    getColorPaletted pal9 7 8 9 0 = getColorPaletted pal9 7 8 9 1 ∧
    getColorPaletted pal9 7 8 9 0 < 255 ∧
    pal9 (getColorPaletted pal9 7 8 9 0) = (7, 8, 9) := by
  have h := getColor_paletted_least pal9 7 8 9 0 1
    (by norm_num) (by norm_num) (by norm_num)
  have h3 := h.2.2 3 (by norm_num) (by simp [pal9])
  exact ⟨by norm_num, by norm_num, by norm_num, h.1, h3.1, h3.2.1⟩

/-! ### C10: alpha through the pixel interface of a paletted surface -/

/-- C10: on a paletted surface `getPixel` always reports fully covering
alpha, whatever the stored index and whatever the transparent-color setting,
and `putPixel` ignores its alpha argument entirely. -/
theorem paletted_pixel_alpha (img : Image) (hp : img.paletted = true)
    (x y r g b a a' : ℕ) (t : Option ℕ) :
    (img.getPixel x y).a = IM_OPAQUE ∧
    ({ img with transparentColor := t } : Image).getPixel x y = img.getPixel x y ∧
    img.putPixel x y r g b a = img.putPixel x y r g b a' := by
  refine ⟨?_, ?_, ?_⟩
  · simp [Image.getPixel, hp]
  · simp [Image.getPixel]
  · simp [Image.putPixel, hp, getColorPaletted]

/-- Witness for `paletted_pixel_alpha` on the all-black-palette image. -/
theorem paletted_pixel_alpha_witness :
    palImg0.paletted = true ∧
    ((palImg0.getPixel 2 3).a = IM_OPAQUE ∧
     ({ palImg0 with transparentColor := some 7 } : Image).getPixel 2 3 =
       palImg0.getPixel 2 3 ∧
     palImg0.putPixel 2 3 1 1 1 0 = palImg0.putPixel 2 3 1 1 1 200) :=
  ⟨rfl, paletted_pixel_alpha palImg0 rfl 2 3 1 1 1 0 200 (some 7)⟩

/-! ### C7: font color presets and palette-write failure -/

/-- C7: `setFontColorFG` with an unrecognized selector writes the default
scheme (255s into the primary slot, 204s into the secondary slot, 68s into
the shadow slot) and succeeds on a paletted image; on a non-paletted image
every `setPaletteIndex` fails without modifying anything, and
`setFontColorFG` short-circuits on the first failed write, returning failure
with the image unchanged. -/
theorem setFontColorFG_contract (img : Image) :
    (img.paletted = true →
      (img.setFontColorFG .other).1 = true ∧
      (img.setFontColorFG .other).2.palette TEXT_FG_PRIMARY_INDEX = (255, 255, 255) ∧
      (img.setFontColorFG .other).2.palette TEXT_FG_SECONDARY_INDEX = (204, 204, 204) ∧
      (img.setFontColorFG .other).2.palette TEXT_FG_SHADOW_INDEX = (68, 68, 68)) ∧
    (img.paletted = false →
      (∀ index r g b, img.setPaletteIndex index r g b = (false, img)) ∧
      (∀ fg, img.setFontColorFG fg = (false, img))) := by
  constructor
  · intro hp
    simp [Image.setFontColorFG, Image.setPaletteIndex, hp,
      TEXT_FG_PRIMARY_INDEX, TEXT_FG_SECONDARY_INDEX, TEXT_FG_SHADOW_INDEX]
  · intro hp
    have hfail : ∀ index r g b, img.setPaletteIndex index r g b = (false, img) := by
      intro index r g b
      simp [Image.setPaletteIndex, hp]
    refine ⟨hfail, ?_⟩
    intro fg
    cases fg <;> simp [Image.setFontColorFG, hfail]

/-- Witness for `setFontColorFG_contract`: the paletted conjunct on the
all-black-palette image, the failure conjunct on a direct-color image. -/
theorem setFontColorFG_contract_witness :
    ((palImg0.setFontColorFG .other).1 = true ∧
     (palImg0.setFontColorFG .other).2.palette TEXT_FG_PRIMARY_INDEX = (255, 255, 255) ∧
     (palImg0.setFontColorFG .other).2.palette TEXT_FG_SECONDARY_INDEX = (204, 204, 204) ∧
     (palImg0.setFontColorFG .other).2.palette TEXT_FG_SHADOW_INDEX = (68, 68, 68)) ∧
    imgC5.setPaletteIndex 5 1 2 3 = (false, imgC5) ∧
    imgC5.setFontColorFG .grey = (false, imgC5) :=
  ⟨(setFontColorFG_contract palImg0).1 rfl,
   ((setFontColorFG_contract imgC5).2 rfl).1 5 1 2 3,
   ((setFontColorFG_contract imgC5).2 rfl).2 .grey⟩

/-! ### Pointwise facts about putPixel on direct-color surfaces -/

/-- `putPixel` never changes the surface geometry. -/
lemma putPixel_w (img : Image) (x y r g b a : ℕ) :
    (img.putPixel x y r g b a).w = img.w := by
  unfold Image.putPixel; split <;> rfl

/-- `putPixel` never changes the surface geometry. -/
lemma putPixel_h (img : Image) (x y r g b a : ℕ) :
    (img.putPixel x y r g b a).h = img.h := by
  unfold Image.putPixel; split <;> rfl

/-- `putPixel` never changes the surface kind. -/
lemma putPixel_paletted (img : Image) (x y r g b a : ℕ) :
    (img.putPixel x y r g b a).paletted = img.paletted := by
  unfold Image.putPixel; split <;> rfl

/-- On a direct-color surface `putPixel` stores the byte casts of its
arguments at the addressed pixel. -/
lemma putPixel_direct_self (img : Image) (hdir : img.paletted = false)
    (x y r g b a : ℕ) :
    (img.putPixel x y r g b a).pix x y = ⟨r % 256, g % 256, b % 256, a % 256⟩ := by
  simp [Image.putPixel, hdir]

/-- On a direct-color surface `putPixel` leaves every other pixel alone. -/
lemma putPixel_direct_other (img : Image) (hdir : img.paletted = false)
    (x y r g b a u v : ℕ) (hne : ¬(u = x ∧ v = y)) :
    (img.putPixel x y r g b a).pix u v = img.pix u v := by
  simp [Image.putPixel, hdir, hne]

/-! ### C1: drawHighlighted -/

/-- Pointwise effect of `drawHighlighted` on a direct-color surface: each
in-range pixel is replaced by its inversion (byte casts made explicit),
out-of-range pixels stay. -/
lemma drawHighlighted_pix (img : Image) (hdir : img.paletted = false) (x y : ℕ) :
    img.drawHighlighted.pix x y =
      if y < img.h ∧ x < img.w then
        ⟨(255 - (img.pix x y).r) % 256, (255 - (img.pix x y).g) % 256,
         (255 - (img.pix x y).b) % 256, (img.pix x y).a % 256⟩
      else img.pix x y := by
  have h := foldl_cellwise
    (fun im (c : ℕ × ℕ) =>
      let p := im.getPixel c.2 c.1
      im.putPixel c.2 c.1 (0xff - p.r) (0xff - p.g) (0xff - p.b) p.a)
    (fun im (c : ℕ × ℕ) => im.pix c.2 c.1)
    (fun _ v => ⟨(255 - v.r) % 256, (255 - v.g) % 256, (255 - v.b) % 256, v.a % 256⟩)
    (fun im => im.paletted = false)
    (fun a c ha => by simpa [putPixel_paletted] using ha)
    (fun a c ha => by
      simp only [Image.getPixel, ha, if_false, Bool.false_eq_true]
      exact putPixel_direct_self a ha c.2 c.1 _ _ _ _)
    (fun a c c' ha hne => by
      simp only [Image.getPixel, ha, if_false, Bool.false_eq_true]
      refine putPixel_direct_other a ha c.2 c.1 _ _ _ _ c'.2 c'.1 ?_
      rintro ⟨h2, h1⟩
      exact hne (Prod.ext h1 h2))
    (loopPairs (List.range img.h) (List.range img.w)) img hdir
    (nodup_loopPairs _ _ (List.nodup_range _) (List.nodup_range _)) (y, x)
  unfold Image.drawHighlighted
  simpa [mem_loopPairs, List.mem_range] using h

/-- `drawHighlighted` preserves the surface geometry and kind. -/
lemma drawHighlighted_fields (img : Image) :
    img.drawHighlighted.w = img.w ∧ img.drawHighlighted.h = img.h ∧
    img.drawHighlighted.paletted = img.paletted := by
  unfold Image.drawHighlighted
  refine foldl_step_pres
    (fun im => im.w = img.w ∧ im.h = img.h ∧ im.paletted = img.paletted)
    _ ?_ _ img ⟨rfl, rfl, rfl⟩
  intro a c hP
  simpa only [putPixel_w, putPixel_h, putPixel_paletted] using hP

/-- `drawHighlighted` keeps every channel inside a byte when the input
surface is byte-clean. -/
lemma drawHighlighted_bytes (img : Image) (hdir : img.paletted = false)
    (hWF : ∀ u v, (img.pix u v).Bytes) :
    ∀ u v, (img.drawHighlighted.pix u v).Bytes := by
  intro u v
  rw [drawHighlighted_pix img hdir]
  split
  · exact ⟨Nat.mod_lt _ (by norm_num), Nat.mod_lt _ (by norm_num),
      Nat.mod_lt _ (by norm_num), Nat.mod_lt _ (by norm_num)⟩
  · exact hWF u v

/-- C1 (amended): on a direct-color surface with byte channels, a single
`drawHighlighted` maps every pixel (r,g,b,a) to (255-r, 255-g, 255-b, a),
and a second application restores every pixel exactly. -/
theorem drawHighlighted_direct_involution (img : Image) (hdir : img.paletted = false)
    (hWF : ∀ u v, (img.pix u v).Bytes) (x y : ℕ) (hx : x < img.w) (hy : y < img.h) :
    img.drawHighlighted.getPixel x y =
      ⟨255 - (img.getPixel x y).r, 255 - (img.getPixel x y).g,
       255 - (img.getPixel x y).b, (img.getPixel x y).a⟩ ∧
    img.drawHighlighted.drawHighlighted.getPixel x y = img.getPixel x y := by
  obtain ⟨hw1, hh1, hp1⟩ := drawHighlighted_fields img
  have hdir1 : img.drawHighlighted.paletted = false := by rw [hp1]; exact hdir
  obtain ⟨hr, hg, hb, ha⟩ := hWF x y
  have hpix1 : img.drawHighlighted.pix x y =
      ⟨255 - (img.pix x y).r, 255 - (img.pix x y).g,
       255 - (img.pix x y).b, (img.pix x y).a⟩ := by
    rw [drawHighlighted_pix img hdir, if_pos ⟨hy, hx⟩]
    congr 1 <;> omega
  constructor
  · simp only [Image.getPixel, hdir, hdir1, if_false, Bool.false_eq_true]
    exact hpix1
  · obtain ⟨hw2, hh2, hp2⟩ := drawHighlighted_fields img.drawHighlighted
    have hdir2 : img.drawHighlighted.drawHighlighted.paletted = false := by
      rw [hp2]; exact hdir1
    simp only [Image.getPixel, hdir, hdir2, if_false, Bool.false_eq_true]
    rw [drawHighlighted_pix img.drawHighlighted hdir1, hw1, hh1,
      if_pos ⟨hy, hx⟩, hpix1]
    have e1 : 255 - (255 - (img.pix x y).r) = (img.pix x y).r := by omega
    have e2 : 255 - (255 - (img.pix x y).g) = (img.pix x y).g := by omega
    have e3 : 255 - (255 - (img.pix x y).b) = (img.pix x y).b := by omega
    simp only [e1, e2, e3]
    have : (⟨(img.pix x y).r % 256, (img.pix x y).g % 256,
        (img.pix x y).b % 256, (img.pix x y).a % 256⟩ : RGBA) =
        ⟨(img.pix x y).r, (img.pix x y).g, (img.pix x y).b, (img.pix x y).a⟩ := by
      congr 1 <;> omega
    rw [this]

/-- Witness for `drawHighlighted_direct_involution` on the 2×1 direct-color
image `imgC5`. -/
theorem drawHighlighted_direct_involution_witness :
    imgC5.paletted = false ∧
    (imgC5.drawHighlighted.getPixel 1 0 =
      ⟨255 - (imgC5.getPixel 1 0).r, 255 - (imgC5.getPixel 1 0).g,
       255 - (imgC5.getPixel 1 0).b, (imgC5.getPixel 1 0).a⟩ ∧
     imgC5.drawHighlighted.drawHighlighted.getPixel 1 0 = imgC5.getPixel 1 0) :=
  ⟨rfl, drawHighlighted_direct_involution imgC5 rfl
    (fun u v => by
      by_cases h : u = 0 ∧ v = 0 <;> simp [imgC5, RGBA.Bytes, h])
    1 0 (by norm_num [imgC5]) (by norm_num [imgC5])⟩

set_option maxRecDepth 40000 in
/-- C1 counterexample: on the paletted image `palImgC1`, applying
`drawHighlighted` twice does not restore the original pixel color — the
inverted color is not in the palette, so the write falls back to index 0xff
and the round trip lands on a different color. -/
theorem drawHighlighted_not_involutive_paletted :
    palImgC1.drawHighlighted.drawHighlighted.getPixel 0 0 ≠ palImgC1.getPixel 0 0 := by
  decide

/-! ### C6: the halo pass of the transparency hack -/

/-- `haloStep` preserves the surface geometry and kind. -/
lemma haloStep_fields (span cOp top bottom : ℕ) (img : Image) (o : ℕ × ℕ) :
    (haloStep span cOp top bottom img o).w = img.w ∧
    (haloStep span cOp top bottom img o).h = img.h ∧
    (haloStep span cOp top bottom img o).paletted = img.paletted := by
  unfold haloStep
  refine foldl_step_pres
    (fun im => im.w = img.w ∧ im.h = img.h ∧ im.paletted = img.paletted)
    _ ?_ _ img ⟨rfl, rfl, rfl⟩
  intro a c hP
  dsimp only
  split
  · simpa only [putPixel_w, putPixel_h, putPixel_paletted] using hP
  · exact hP

/-- Pointwise effect of a single `haloStep` on a direct-color surface, with
the loop bounds as written in the code. -/
lemma haloStep_pix (span cOp top bottom : ℕ) (img : Image)
    (hdir : img.paletted = false) (ox oy x y : ℕ) :
    (haloStep span cOp top bottom img (ox, oy)).pix x y =
      if ox - span ≤ x ∧ x < (ox - span) + (min img.w (ox + span + 1) - (ox - span)) ∧
         max top (oy - span) ≤ y ∧
         y < max top (oy - span) + (min bottom (oy + span + 1) - max top (oy - span)) then
        (if (img.pix x y).a ≠ IM_OPAQUE then
          (⟨(img.pix x y).r % 256, (img.pix x y).g % 256, (img.pix x y).b % 256,
            (min IM_OPAQUE ((img.pix x y).a +
              cOp / (1 + (span : ℤ) * 2 - |(ox : ℤ) - x| - |(oy : ℤ) - y|).toNat)) % 256⟩ : RGBA)
        else img.pix x y)
      else img.pix x y := by
  have h := foldl_cellwise
    (fun im (c : ℕ × ℕ) =>
      let x := c.1
      let y := c.2
      let divisor : ℤ := 1 + (span : ℤ) * 2 - |(ox : ℤ) - x| - |(oy : ℤ) - y|
      let p := im.getPixel x y
      if p.a ≠ IM_OPAQUE then
        im.putPixel x y p.r p.g p.b (min IM_OPAQUE (p.a + cOp / divisor.toNat))
      else im)
    (fun im (c : ℕ × ℕ) => im.pix c.1 c.2)
    (fun (c : ℕ × ℕ) (v : RGBA) =>
      if v.a ≠ IM_OPAQUE then
        (⟨v.r % 256, v.g % 256, v.b % 256,
          (min IM_OPAQUE (v.a +
            cOp / (1 + (span : ℤ) * 2 - |(ox : ℤ) - c.1| - |(oy : ℤ) - c.2|).toNat)) % 256⟩ : RGBA)
      else v)
    (fun im => im.paletted = false)
    (fun a c ha => by
      dsimp only
      split
      · simpa only [putPixel_paletted] using ha
      · exact ha)
    (fun a c ha => by
      dsimp only
      simp only [Image.getPixel, ha, if_false, Bool.false_eq_true]
      split
      · exact putPixel_direct_self a ha c.1 c.2 _ _ _ _
      · rfl)
    (fun a c c' ha hne => by
      dsimp only
      simp only [Image.getPixel, ha, if_false, Bool.false_eq_true]
      split
      · refine putPixel_direct_other a ha c.1 c.2 _ _ _ _ c'.1 c'.2 ?_
        rintro ⟨h1, h2⟩
        exact hne (Prod.ext h1 h2)
      · rfl)
    (loopPairs
      (List.range' (ox - span) (min img.w (ox + span + 1) - (ox - span)))
      (List.range' (max top (oy - span)) (min bottom (oy + span + 1) - max top (oy - span))))
    img hdir
    (nodup_loopPairs _ _ (List.nodup_range' _ _) (List.nodup_range' _ _)) (x, y)
  unfold haloStep
  simpa [mem_loopPairs, List.mem_range'_1, and_assoc] using h

/-- C6: in the halo pass, a recorded coordinate `(ox, oy)` raises the alpha
of every pixel within box radius `span` of it (x clipped to the surface
width, y to the scanned band) whose current alpha is not fully covering, by
`shadowOpacity / (1 + 2·span - |dx| - |dy|)`, capped at the fully covering
value, leaving every other pixel untouched; and the steps of the pass read
the surface left by the previous steps (on `imgC6`, two recorded neighbors
each add 10/2 to the middle pixel, the second on top of the first). -/
theorem transparencyHack_halo_step (span cOp top bottom : ℕ) (img : Image)
    (ox oy x y : ℕ) (hdir : img.paletted = false) (hWF : (img.pix x y).Bytes) :
    ((haloStep span cOp top bottom img (ox, oy)).getPixel x y =
      if |(x : ℤ) - ox| ≤ span ∧ x < img.w ∧
         |(y : ℤ) - oy| ≤ span ∧ top ≤ y ∧ y < bottom ∧
         (img.getPixel x y).a ≠ IM_OPAQUE then
        { img.getPixel x y with
          a := min IM_OPAQUE ((img.getPixel x y).a +
            cOp / (1 + 2 * (span : ℤ) - |(x : ℤ) - ox| - |(y : ℤ) - oy|).toNat) }
      else img.getPixel x y) ∧
    ((List.foldl (haloStep 1 10 0 1) imgC6 [(0, 0), (2, 0)]).getPixel 1 0).a = 10 := by
  refine ⟨?_, by decide⟩
  obtain ⟨hw, hh, hp⟩ := haloStep_fields span cOp top bottom img (ox, oy)
  have hdir' : (haloStep span cOp top bottom img (ox, oy)).paletted = false := by
    rw [hp]; exact hdir
  simp only [Image.getPixel, hdir, hdir', if_false, Bool.false_eq_true]
  rw [haloStep_pix span cOp top bottom img hdir ox oy x y]
  have habs : |(ox : ℤ) - x| = |(x : ℤ) - ox| := abs_sub_comm _ _
  have habs' : |(oy : ℤ) - y| = |(y : ℤ) - oy| := abs_sub_comm _ _
  have hx1 : |(x : ℤ) - ox| ≤ span ↔ (ox : ℤ) - span ≤ x ∧ (x : ℤ) ≤ ox + span := by
    rw [abs_le]; constructor <;> intro h <;> constructor <;> omega
  have hy1 : |(y : ℤ) - oy| ≤ span ↔ (oy : ℤ) - span ≤ y ∧ (y : ℤ) ≤ oy + span := by
    rw [abs_le]; constructor <;> intro h <;> constructor <;> omega
  by_cases hc : |(x : ℤ) - ox| ≤ span ∧ x < img.w ∧
      |(y : ℤ) - oy| ≤ span ∧ top ≤ y ∧ y < bottom ∧ (img.pix x y).a ≠ IM_OPAQUE
  · rw [if_pos hc]
    obtain ⟨hcx, hcw, hcy, hct, hcb, hca⟩ := hc
    rw [hx1] at hcx
    rw [hy1] at hcy
    rw [if_pos (by constructor <;> [omega; (constructor <;> [omega; (constructor <;> omega)])]),
      if_pos hca]
    have hbound : min IM_OPAQUE ((img.pix x y).a +
        cOp / (1 + (span : ℤ) * 2 - |(ox : ℤ) - x| - |(oy : ℤ) - y|).toNat) < 256 := by
      unfold IM_OPAQUE; omega
    obtain ⟨hr, hg, hb, _⟩ := hWF
    congr 1
    · omega
    · omega
    · omega
    · rw [Nat.mod_eq_of_lt hbound, habs, habs', mul_comm (span : ℤ) 2]
  · rw [if_neg hc]
    by_cases hrange : ox - span ≤ x ∧
        x < (ox - span) + (min img.w (ox + span + 1) - (ox - span)) ∧
        max top (oy - span) ≤ y ∧
        y < max top (oy - span) + (min bottom (oy + span + 1) - max top (oy - span))
    · rw [if_pos hrange]
      obtain ⟨h1, h2, h3, h4⟩ := hrange
      by_cases hca : (img.pix x y).a ≠ IM_OPAQUE
      · exfalso
        apply hc
        refine ⟨?_, by omega, ?_, by omega, by omega, hca⟩
        · rw [hx1]; constructor <;> omega
        · rw [hy1]; constructor <;> omega
      · rw [if_neg hca]
    · rw [if_neg hrange]

/-- Witness for `transparencyHack_halo_step`: the box update on the middle
pixel of `imgC6` from the recorded neighbor (0,0). -/
theorem transparencyHack_halo_step_witness :
    imgC6.paletted = false ∧ (imgC6.pix 1 0).Bytes ∧
    ((haloStep 1 10 0 1 imgC6 (0, 0)).getPixel 1 0 =
      if |((1 : ℕ) : ℤ) - (0 : ℕ)| ≤ (1 : ℕ) ∧ (1 : ℕ) < imgC6.w ∧
         |((0 : ℕ) : ℤ) - (0 : ℕ)| ≤ (1 : ℕ) ∧ (0 : ℕ) ≤ (0 : ℕ) ∧ (0 : ℕ) < (1 : ℕ) ∧
         (imgC6.getPixel 1 0).a ≠ IM_OPAQUE then
        { imgC6.getPixel 1 0 with
          a := min IM_OPAQUE ((imgC6.getPixel 1 0).a +
            10 / (1 + 2 * ((1 : ℕ) : ℤ) - |((1 : ℕ) : ℤ) - (0 : ℕ)| -
              |((0 : ℕ) : ℤ) - (0 : ℕ)|).toNat) }
      else imgC6.getPixel 1 0) :=
  ⟨rfl, by decide,
    (transparencyHack_halo_step 1 10 0 1 imgC6 0 0 1 0 rfl (by decide)).1⟩

/-! ### C5: makeBackgroundColorTransparent with no halo -/

/-- With halo width 0, pass 1 never records a coordinate. -/
lemma pass1_snd (t : ℕ × ℕ × ℕ) :
    ∀ (L : List (ℕ × ℕ)) (st : Image × List (ℕ × ℕ)),
      (L.foldl (transparencyPass1Step t 0) st).2 = st.2 := by
  intro L
  induction L with
  | nil => intro st; rfl
  | cons c L ih =>
    intro st
    rw [List.foldl_cons, ih]
    unfold transparencyPass1Step
    dsimp only
    split
    · rfl
    · simp

/-- The surface computed by pass 1 does not depend on the saved list. -/
lemma pass1_fst (t : ℕ × ℕ × ℕ) (hw : ℕ) :
    ∀ (L : List (ℕ × ℕ)) (st : Image × List (ℕ × ℕ)),
      (L.foldl (transparencyPass1Step t hw) st).1 = L.foldl (pass1ImgStep t) st.1 := by
  intro L
  induction L with
  | nil => intro st; rfl
  | cons c L ih =>
    intro st
    rw [List.foldl_cons, List.foldl_cons, ih]
    congr 1
    unfold transparencyPass1Step pass1ImgStep
    dsimp only
    split
    · rfl
    · rfl

/-- Pass 1 of the transparency hack preserves the surface kind. -/
lemma pass1_fold_paletted (t : ℕ × ℕ × ℕ) (L : List (ℕ × ℕ)) (img : Image) :
    (L.foldl (pass1ImgStep t) img).paletted = img.paletted := by
  refine foldl_step_pres (fun im => im.paletted = img.paletted) _ ?_ L img rfl
  intro a c ha
  unfold pass1ImgStep
  dsimp only
  split <;> simpa only [putPixel_paletted] using ha

/-- Pointwise effect of pass 1 over the band `[top, top+len)` on a
direct-color surface. -/
lemma pass1_pix (t : ℕ × ℕ × ℕ) (img : Image) (hdir : img.paletted = false)
    (top len x y : ℕ) :
    ((loopPairs (List.range' top len) (List.range img.w)).foldl
        (pass1ImgStep t) img).pix x y =
      if top ≤ y ∧ y < top + len ∧ x < img.w then
        (if (img.pix x y).r = t.1 ∧ (img.pix x y).g = t.2.1 ∧ (img.pix x y).b = t.2.2 then
          (⟨(img.pix x y).r % 256, (img.pix x y).g % 256, (img.pix x y).b % 256,
            IM_TRANSPARENT % 256⟩ : RGBA)
        else
          (⟨(img.pix x y).r % 256, (img.pix x y).g % 256, (img.pix x y).b % 256,
            (img.pix x y).a % 256⟩ : RGBA))
      else img.pix x y := by
  have h := foldl_cellwise
    (pass1ImgStep t)
    (fun im (c : ℕ × ℕ) => im.pix c.2 c.1)
    (fun (_ : ℕ × ℕ) (v : RGBA) =>
      if v.r = t.1 ∧ v.g = t.2.1 ∧ v.b = t.2.2 then
        (⟨v.r % 256, v.g % 256, v.b % 256, IM_TRANSPARENT % 256⟩ : RGBA)
      else
        (⟨v.r % 256, v.g % 256, v.b % 256, v.a % 256⟩ : RGBA))
    (fun im => im.paletted = false)
    (fun a c ha => by
      unfold pass1ImgStep
      dsimp only
      split <;> simpa only [putPixel_paletted] using ha)
    (fun a c ha => by
      unfold pass1ImgStep
      dsimp only
      simp only [Image.getPixel, ha, if_false, Bool.false_eq_true]
      split
      · exact putPixel_direct_self a ha c.2 c.1 _ _ _ _
      · exact putPixel_direct_self a ha c.2 c.1 _ _ _ _)
    (fun a c c' ha hne => by
      unfold pass1ImgStep
      dsimp only
      simp only [Image.getPixel, ha, if_false, Bool.false_eq_true]
      have hother : ¬(c'.2 = c.2 ∧ c'.1 = c.1) := by
        rintro ⟨h2, h1⟩
        exact hne (Prod.ext h1 h2)
      split <;> exact putPixel_direct_other a ha c.2 c.1 _ _ _ _ c'.2 c'.1 hother)
    (loopPairs (List.range' top len) (List.range img.w))
    img hdir
    (nodup_loopPairs _ _ (List.nodup_range' _ _) (List.nodup_range _)) (y, x)
  simpa [mem_loopPairs, List.mem_range'_1, List.mem_range, and_assoc] using h

/-- C5: `makeBackgroundColorTransparent` with halo size 0 on a direct-color
surface whose pixels are all fully covered turns exactly the background
colored pixels fully transparent, makes every other pixel alpha 255, and
changes no RGB channel. -/
theorem makeBackgroundColorTransparent_keying (img : Image) (shadowOp : ℕ)
    (hdir : img.paletted = false)
    (hWF : ∀ u v, (img.pix u v).Bytes)
    (hbg : img.backgroundColor.Bytes)
    (hFull : ∀ u v, (img.pix u v).a = IM_OPAQUE)
    (x y : ℕ) (hx : x < img.w) (hy : y < img.h) :
    (img.makeBackgroundColorTransparent 0 shadowOp).getPixel x y =
      if (img.getPixel x y).r = img.backgroundColor.r ∧
         (img.getPixel x y).g = img.backgroundColor.g ∧
         (img.getPixel x y).b = img.backgroundColor.b then
        { img.getPixel x y with a := IM_TRANSPARENT }
      else { img.getPixel x y with a := IM_OPAQUE } := by
  obtain ⟨hbr, hbgg, hbb, hba⟩ := hbg
  have hkey : img.makeBackgroundColorTransparent 0 shadowOp =
      (loopPairs (List.range' 0 img.h) (List.range img.w)).foldl
        (pass1ImgStep (img.backgroundColor.r, img.backgroundColor.g,
          img.backgroundColor.b)) img := by
    unfold Image.makeBackgroundColorTransparent Image.performTransparencyHack
    dsimp only
    rw [pass1_snd, List.foldl_nil, pass1_fst]
    rw [Nat.div_one, Nat.zero_mul, Nat.min_zero, Nat.zero_add, Nat.min_self,
      Nat.sub_zero, Nat.mod_eq_of_lt hbr, Nat.mod_eq_of_lt hbgg,
      Nat.mod_eq_of_lt hbb]
  have hpal : (img.makeBackgroundColorTransparent 0 shadowOp).paletted = false := by
    rw [hkey, pass1_fold_paletted]; exact hdir
  simp only [Image.getPixel, hdir, hpal, if_false, Bool.false_eq_true]
  rw [hkey, pass1_pix _ img hdir 0 img.h x y,
    if_pos ⟨Nat.zero_le y, by omega, hx⟩]
  dsimp only
  obtain ⟨hr, hg, hb, _⟩ := hWF x y
  have ha := hFull x y
  split
  · congr 1 <;> first | rfl | omega
  · rw [ha]
    congr 1 <;> first | rfl | omega

/-- Witness for `makeBackgroundColorTransparent_keying` on `imgC5`: the
background pixel goes transparent, the other pixel stays covered. -/
theorem makeBackgroundColorTransparent_keying_witness :
    imgC5.paletted = false ∧ imgC5.backgroundColor.Bytes ∧
    ((imgC5.makeBackgroundColorTransparent 0 7).getPixel 0 0 =
      if (imgC5.getPixel 0 0).r = imgC5.backgroundColor.r ∧
         (imgC5.getPixel 0 0).g = imgC5.backgroundColor.g ∧
         (imgC5.getPixel 0 0).b = imgC5.backgroundColor.b then
        { imgC5.getPixel 0 0 with a := IM_TRANSPARENT }
      else { imgC5.getPixel 0 0 with a := IM_OPAQUE }) :=
  ⟨rfl, by decide,
    makeBackgroundColorTransparent_keying imgC5 7 rfl
      (fun u v => by by_cases h : u = 0 ∧ v = 0 <;> simp [imgC5, RGBA.Bytes, h])
      (by decide)
      (fun u v => by by_cases h : u = 0 ∧ v = 0 <;> simp [imgC5, h, IM_OPAQUE])
      0 0 (by norm_num [imgC5]) (by norm_num [imgC5])⟩

end ScummVM
